import Mathlib

/-!
# Verification of `object-appender` (src/main.go)

Shallow embedding of the one-shot pipeline in `src/main.go`: the program
parses `--source-bucket-prefix` / `--target-bucket-prefix`, downloads every
object under the source bucket+key-namespace into a local staging directory
(`downloadObjects`), appends the staged files into a single artifact
(`appendObjects`), uploads the artifact (`uploadObject`), and removes the
staging directories (`cleanUp`) unless `--enable-clean-up` is `"true"`.

Modelling choices (each definition is annotated with the source lines it
embeds):
* file contents are `List Nat` (byte values); the filesystem is a flat list
  of `(path, contents)` pairs, paths being slash-separated components —
  directories are implicit, so `os.MkdirAll` is a no-op of the model;
* `filepath.Walk` visits files in lexical order of directory entries, which
  on leaf files is lexicographic order of the component list (bytewise on
  each component, which for UTF-8 agrees with code-point order);
* the store is honest: every listing entry carries the bytes that
  `FGetObject` would deliver; listing and fetch failures (which the source
  merely propagates) are not exercised by the claims and are not modelled;
* `int64` counters are `Int` (the runs in scope never approach overflow);
* `log.Fatalln` (non-zero exit before any network call) is the
  `Outcome.fatalConfig` result; a run that fails later returns after
  `cleanUp` without an upload (`Outcome.failedNoUpload`); reaching
  `FPutObject` is `Outcome.uploaded` with the uploaded key and bytes.
-/

namespace ObjectAppender

/-- File contents: a list of byte values. -/
abbrev Bytes := List Nat

/-- A filesystem path, as slash-separated components. -/
abbrev Path := List String

/-- Flat filesystem model: a list of files, each a path with contents. -/
abbrev FS := List (Path × Bytes)

/-- One entry of the source listing (`minio.ObjectInfo`): the object key, the
advertised size (`object.Size`, an int64), and the object bytes that
`FGetObject` delivers. -/
structure LObj where
  key : String
  size : Int
  content : Bytes
deriving DecidableEq

/-- Look up the contents of the file at `p`. -/
def fsGet (p : Path) (fs : FS) : Option Bytes :=
  (fs.find? (fun e => e.1 == p)).map (fun e => e.2)

/-- Create or overwrite the file at `p`. -/
def fsPut (p : Path) (c : Bytes) (fs : FS) : FS :=
  fs.filter (fun e => !(e.1 == p)) ++ [(p, c)]

/-- `os.Remove p` (removing a missing file is a no-op of the model; the
source only logs that failure and continues). -/
def fsRemove (p : Path) (fs : FS) : FS :=
  fs.filter (fun e => !(e.1 == p))

/-- `os.RemoveAll p`: delete `p` and everything below it. -/
def fsRemoveAll (p : Path) (fs : FS) : FS :=
  fs.filter (fun e => !(p.isPrefixOf e.1))

/-- `filepath.Dir`: drop the last path component. -/
def dirOf (p : Path) : Path := p.dropLast

/-- Bytewise (code-point) comparison of character lists, the order
`sort.Strings` uses on directory entries. -/
def chListLt : List Char → List Char → Bool
  | [], [] => false
  | [], _ :: _ => true
  | _ :: _, [] => false
  | a :: as, b :: bs =>
    if a.toNat < b.toNat then true
    else if b.toNat < a.toNat then false
    else chListLt as bs

/-- Lexicographic order on paths, comparing components bytewise: the order in
which `filepath.Walk` reaches leaf files. -/
def pathLt : Path → Path → Bool
  | [], [] => false
  | [], _ :: _ => true
  | _ :: _, [] => false
  | a :: as, b :: bs =>
    if chListLt a.data b.data then true
    else if chListLt b.data a.data then false
    else pathLt as bs

/-- Insert a file into a path-sorted file list. -/
def insertPath (e : Path × Bytes) : List (Path × Bytes) → List (Path × Bytes)
  | [] => [e]
  | f :: fs => if pathLt e.1 f.1 then e :: f :: fs else f :: insertPath e fs

/-- Sort a file list by path (insertion sort). -/
def sortPaths : List (Path × Bytes) → List (Path × Bytes)
  | [] => []
  | e :: fs => insertPath e (sortPaths fs)

/-- The files below `dir`, in the order `filepath.Walk` visits them
(src/main.go line 191). -/
def walkFiles (dir : Path) (fs : FS) : List (Path × Bytes) :=
  sortPaths (fs.filter (fun e => dir.isPrefixOf e.1))

/-- `strings.SplitN s "/" 2` (src/main.go lines 72–81): split at the first
slash only; a string without a slash yields a single piece. -/
def splitN2Aux : List Char → List Char → List String
  | acc, [] => [String.mk acc.reverse]
  | acc, c :: cs =>
    if c = '/' then [String.mk acc.reverse, String.mk cs]
    else splitN2Aux (c :: acc) cs

/-- `strings.SplitN s "/" 2`. -/
def splitN2 (s : String) : List String :=
  splitN2Aux [] s.data

/-- Split a key at every slash: the path components of the staged copy of an
object (its file is created at `downloadDirectory ++ "/" ++ key`). -/
def splitAllAux : List Char → List Char → List String
  | acc, [] => [String.mk acc.reverse]
  | acc, c :: cs =>
    if c = '/' then String.mk acc.reverse :: splitAllAux [] cs
    else splitAllAux (c :: acc) cs

/-- Path components of an object key. -/
def splitKey (k : String) : List String :=
  splitAllAux [] k.data

/-- Whether `s` contains a slash at all. -/
def hasSlash (s : String) : Bool :=
  s.data.any (fun c => c == '/')

/-- Number of slashes in `s` (used to state the spec's wording "exactly one
slash"). -/
def slashCount (s : String) : Nat :=
  (s.data.filter (fun c => c == '/')).length

/-- `strings.SplitN(s, "/", 2)[0]` — the bucket part. -/
def parseBucket (s : String) : String :=
  (splitN2 s).headD ""

/-- `strings.SplitN(s, "/", 2)[1]` — the key-namespace part. -/
def parsePfx (s : String) : String :=
  (splitN2 s).getD 1 ""

/-- The four package-level int64 counters of src/main.go line 47. -/
structure Counters where
  objectCount : Int
  objectSize : Int
  fileCount : Int
  fileSize : Int
deriving DecidableEq

/-- Counters at program start (Go zero values). -/
def Counters.init : Counters := ⟨0, 0, 0, 0⟩

/-- The staged path of an object: its key's components below the download
directory (src/main.go line 150). -/
def stagedPath (downloadDirectory : Path) (o : LObj) : Path :=
  downloadDirectory ++ splitKey o.key

/-- One iteration of the download loop (src/main.go lines 144–158):
increment `objectCount`, write the fetched bytes at the staged path, add the
advertised size to `objectSize`.  The fetch is modelled as succeeding; this
matches `FGetObject` exactly on listings whose staged paths form a valid
file tree (`validListing`, defined below) staged into a fresh scratch area —
outside that domain the real fetch fails deterministically (`os.MkdirAll`
over an existing file, opening a directory, or OS path collapsing), so
run-level theorems quantifying over listings restrict to it. -/
def stageStep (downloadDirectory : Path) (acc : Counters × FS) (o : LObj) :
    Counters × FS :=
  ({ acc.1 with
      objectCount := acc.1.objectCount + 1,
      objectSize := acc.1.objectSize + o.size },
    fsPut (stagedPath downloadDirectory o) o.content acc.2)

/-- `downloadObjects` (src/main.go lines 132–166): stage every listed object
at `downloadDirectory ++ splitKey key`, incrementing `objectCount` and
`objectSize` per object; after the loop, fail with the error
`"no objects found"` when nothing was listed. -/
def downloadObjects (downloadDirectory : Path) (listing : List LObj)
    (c : Counters) (fs : FS) : Except String (Counters × FS) :=
  let r := listing.foldl (stageStep downloadDirectory) (c, fs)
  if r.1.objectCount == 0 then .error "no objects found" else .ok r

deriving instance DecidableEq for Except

/-- Result of `appendObjects`: the returned error value, the counters, the
filesystem, and the artifact bytes that were written. -/
structure AppendResult where
  result : Except String Unit
  counters : Counters
  fs : FS
  artifact : Bytes
deriving DecidableEq

/-- The three consistency comparisons of src/main.go lines 236–254. -/
def checksPass (c : Counters) (artifactSize : Int) : Bool :=
  c.objectCount == c.fileCount &&
    c.objectSize == c.fileSize &&
    c.objectSize == artifactSize

/-- `appendObjects` (src/main.go lines 168–258): remove any pre-existing
artifact, open it fresh (`O_CREATE|O_APPEND`), walk the download directory
appending every file's bytes to it while counting `fileCount`/`fileSize`,
then run the three consistency checks.  After a successful walk and
`out.Stat()` the variable `err` is nil, and each mismatch branch of the
source does `return err` — so a mismatch still returns success; this latent
bug of the source is embedded faithfully (`statErr`). -/
def appendObjects (downloadDirectory uploadDirectory : Path)
    (targetObject : String) (c : Counters) (fs : FS) : AppendResult :=
  let objectName := uploadDirectory ++ [targetObject]
  let fs1 := fsRemove objectName fs
  let fs2 := fsPut objectName [] fs1
  let walked := walkFiles downloadDirectory fs2
  let c2 : Counters :=
    { c with
        fileCount := c.fileCount + walked.length,
        fileSize := c.fileSize + (walked.map (fun e => (e.2.length : Int))).sum }
  let artifact := walked.foldl (fun acc e => acc ++ e.2) []
  let fs3 := fsPut objectName artifact fs2
  let statErr : Except String Unit := .ok ()
  let result :=
    if c2.objectCount != c2.fileCount then statErr
    else if c2.objectSize != c2.fileSize then statErr
    else if c2.objectSize != (artifact.length : Int) then statErr
    else .ok ()
  { result := result, counters := c2, fs := fs3, artifact := artifact }

/-- `targetObject` (src/main.go line 93):
`strings.Join([sourceBucket, strconv.Itoa(now)], "-")`. -/
def mkTargetObject (sourceBucket : String) (now : Int) : String :=
  sourceBucket ++ "-" ++ toString now

/-- The key `uploadObject` writes to (src/main.go line 280):
`strings.Join([targetPfx, targetObject], "/")`. -/
def uploadKey (targetPfx targetObject : String) : String :=
  targetPfx ++ "/" ++ targetObject

/-- Default of the `--enable-clean-up` flag (src/main.go line 65). -/
def enableCleanUpDefault : String := "false"

/-- Components of the `StagingDirectory` constant `"/tmp"`. -/
def stagingComponents : Path := ["", "tmp"]

/-- A run's staging directory (src/main.go lines 91–92):
`strings.Join([StagingDirectory, bucket, strconv.Itoa(now)], "/")`. -/
def mkRunDir (bucket : String) (now : Int) : Path :=
  stagingComponents ++ [bucket, toString now]

/-- `cleanUp` (src/main.go lines 290–302): unless the flag is exactly
`"true"`, `os.RemoveAll` the *parent* (`filepath.Dir`) of each staging
directory. -/
def cleanUp (enableCleanUp : String) (downloadDirectory uploadDirectory : Path)
    (fs : FS) : FS :=
  if enableCleanUp != "true" then
    fsRemoveAll (dirOf uploadDirectory) (fsRemoveAll (dirOf downloadDirectory) fs)
  else fs

/-- How a run of `main` ends. -/
inductive Outcome
  /-- `log.Fatalln` on a malformed bucket/prefix argument: non-zero exit
  before any network call. -/
  | fatalConfig
  /-- A pipeline step returned an error: `main` ran `cleanUp` and returned
  without attempting an upload. -/
  | failedNoUpload (e : String)
  /-- `uploadObject` was reached: `FPutObject` of the artifact bytes to the
  target bucket under the given key. -/
  | uploaded (bucket : String) (key : String) (content : Bytes)
deriving DecidableEq

/-- Final state of a run. -/
structure RunResult where
  outcome : Outcome
  fs : FS
  counters : Counters
deriving DecidableEq

/-- The pipeline of `main` after argument parsing (src/main.go lines 89–117):
download, append, upload, each failure short-circuiting into `cleanUp`; the
`tamper` argument models an external filesystem modification between staging
and appending (`id` for an undisturbed run). -/
def runPipeline (sourceBucket targetBucket targetPfx enableCleanUp : String)
    (now : Int) (listing : List LObj) (tamper : FS → FS) (fs0 : FS) :
    RunResult :=
  let downloadDirectory := mkRunDir sourceBucket now
  let uploadDirectory := mkRunDir targetBucket now
  let targetObject := mkTargetObject sourceBucket now
  match downloadObjects downloadDirectory listing Counters.init fs0 with
  | .error e =>
    { outcome := .failedNoUpload e,
      fs := cleanUp enableCleanUp downloadDirectory uploadDirectory fs0,
      counters := Counters.init }
  | .ok (c1, fs1) =>
    let r := appendObjects downloadDirectory uploadDirectory targetObject
      c1 (tamper fs1)
    match r.result with
    | .error e =>
      { outcome := .failedNoUpload e,
        fs := cleanUp enableCleanUp downloadDirectory uploadDirectory r.fs,
        counters := r.counters }
    | .ok _ =>
      { outcome := .uploaded targetBucket (uploadKey targetPfx targetObject)
          ((fsGet (uploadDirectory ++ [targetObject]) r.fs).getD []),
        fs := cleanUp enableCleanUp downloadDirectory uploadDirectory r.fs,
        counters := r.counters }

/-- `main` (src/main.go lines 57–118): fatal exit on a malformed
bucket/prefix argument, otherwise the parsed pipeline. -/
def runMainTampered (sourceBucketPfx targetBucketPfx enableCleanUp : String)
    (now : Int) (listing : List LObj) (tamper : FS → FS) (fs0 : FS) :
    RunResult :=
  if ((splitN2 sourceBucketPfx).length != 2)
      || ((splitN2 targetBucketPfx).length != 2) then
    { outcome := .fatalConfig, fs := fs0, counters := Counters.init }
  else
    runPipeline (parseBucket sourceBucketPfx) (parseBucket targetBucketPfx)
      (parsePfx targetBucketPfx) enableCleanUp now listing tamper fs0

/-- An undisturbed run of `main`. -/
def runMain (sourceBucketPfx targetBucketPfx enableCleanUp : String)
    (now : Int) (listing : List LObj) (fs0 : FS) : RunResult :=
  runMainTampered sourceBucketPfx targetBucketPfx enableCleanUp now listing id fs0

/-- Spec wording for C2: the concatenation of the listed objects' bytes in
listing order. -/
def listingConcat (listing : List LObj) : Bytes :=
  (listing.map (fun o => o.content)).flatten

/-- Order on listed objects induced by their staged paths: compare
slash-split keys componentwise. -/
def keyPathLt (a b : LObj) : Bool :=
  pathLt (splitKey a.key) (splitKey b.key)

/-- Insert into a `keyPathLt`-sorted object list. -/
def insertObj (a : LObj) : List LObj → List LObj
  | [] => [a]
  | b :: bs => if keyPathLt a b then a :: b :: bs else b :: insertObj a bs

/-- Sort listed objects by staged path. -/
def sortObjs : List LObj → List LObj
  | [] => []
  | a :: as => insertObj a (sortObjs as)

/-- The concatenation of the listed objects' bytes in walk order: objects
ordered by their staged relative path (slash-split key, componentwise
bytewise order). -/
def walkOrderConcat (listing : List LObj) : Bytes :=
  ((sortObjs listing).map (fun o => o.content)).flatten

/-- Glue path components back together with slashes (left inverse of
`splitKey`, used to prove `splitKey` injective). -/
def joinComponents : List String → List Char
  | [] => []
  | [s] => s.data
  | s :: rest => s.data ++ '/' :: joinComponents rest

/-- The staged file of an object. -/
def stagedEntry (downloadDirectory : Path) (o : LObj) : Path × Bytes :=
  (stagedPath downloadDirectory o, o.content)

/-- A path component the OS would not treat as a plain name: empty (arising
from a leading, trailing or doubled slash in a key), `"."`, or `".."`. -/
def badComponent (s : String) : Bool :=
  s == "" || s == "." || s == ".."

/-- No path in the list is a prefix of another (pairwise, both directions):
no staged name would have to be both a file and a directory. -/
def treeDisjoint : List Path → Bool
  | [] => true
  | p :: ps =>
    ps.all (fun q => !(p.isPrefixOf q) && !(q.isPrefixOf p)) && treeDisjoint ps

/-- The staged copies of the listed keys form a valid file tree — the domain
on which the flat filesystem model agrees with the OS during staging: every
slash-split key has only plain components, so the staged OS path is exactly
the model path (nothing collapses, escapes the staging directory, or names
a directory), and no key's path is a prefix of another's (on such a pair
`FGetObject` deterministically fails, at `os.MkdirAll` over an
already-staged file or at opening an existing directory, and the run aborts
before any append). Run-level theorems quantifying over listings carry this
as a hypothesis. -/
def validListing (listing : List LObj) : Bool :=
  listing.all (fun o => (splitKey o.key).all (fun s => !(badComponent s)))
    && treeDisjoint (listing.map (fun o => splitKey o.key))

end ObjectAppender

namespace ObjectAppender

/-! ## Filesystem lemmas -/

theorem fsGet_eq_none_iff (p : Path) (fs : FS) :
    fsGet p fs = none ↔ ∀ e ∈ fs, ¬(e.1 = p) := by
  simp [fsGet, List.find?_eq_none]

theorem fsGet_filter_none (p : Path) (q : Path × Bytes → Bool) (fs : FS)
    (h : fsGet p fs = none) : fsGet p (List.filter q fs) = none := by
  rw [fsGet_eq_none_iff] at h ⊢
  intro e he
  exact h e (List.mem_filter.mp he).1

theorem fsGet_fsRemoveAll_of_under (q p : Path) (fs : FS)
    (h : q.isPrefixOf p = true) : fsGet p (fsRemoveAll q fs) = none := by
  rw [fsGet_eq_none_iff]
  intro e he heq
  have h2 := (List.mem_filter.mp he).2
  rw [heq] at h2
  simp [h] at h2

theorem fsGet_fsRemoveAll_none (q p : Path) (fs : FS) (h : fsGet p fs = none) :
    fsGet p (fsRemoveAll q fs) = none :=
  fsGet_filter_none p _ fs h

theorem find?_filter_irrelevant {α : Type} (l : List α) (pr q : α → Bool)
    (h : ∀ e ∈ l, q e = false → pr e = false) :
    (l.filter q).find? pr = l.find? pr := by
  induction l with
  | nil => rfl
  | cons e l ih =>
    cases hq : q e with
    | true =>
      rw [List.filter_cons_of_pos hq]
      cases hpr : pr e with
      | true => rw [List.find?_cons_of_pos _ hpr, List.find?_cons_of_pos _ hpr]
      | false =>
        rw [List.find?_cons_of_neg _ (by simp [hpr]),
          List.find?_cons_of_neg _ (by simp [hpr])]
        exact ih fun x hx => h x (List.mem_cons_of_mem e hx)
    | false =>
      rw [List.filter_cons_of_neg (by simp [hq])]
      rw [List.find?_cons_of_neg _ (by simp [h e (List.mem_cons_self e l) hq])]
      exact ih fun x hx => h x (List.mem_cons_of_mem e hx)

theorem fsGet_fsRemoveAll_of_not_under (q p : Path) (fs : FS)
    (h : q.isPrefixOf p = false) :
    fsGet p (fsRemoveAll q fs) = fsGet p fs := by
  unfold fsGet fsRemoveAll
  rw [find?_filter_irrelevant]
  intro e _ hq
  by_cases heq : e.1 = p
  · rw [heq] at hq
    simp [h] at hq
  · simp [heq]

theorem cleanUp_of_ne_true (flag : String) (dl ul : Path) (fs : FS)
    (h : flag ≠ "true") :
    cleanUp flag dl ul fs = fsRemoveAll (dirOf ul) (fsRemoveAll (dirOf dl) fs) := by
  simp [cleanUp, h]

theorem cleanUp_true_eq (dl ul : Path) (fs : FS) :
    cleanUp "true" dl ul fs = fs := by
  simp [cleanUp]

theorem fsGet_cleanUp_under (flag : String) (dl ul p : Path) (fs : FS)
    (hflag : flag ≠ "true")
    (h : (dirOf dl).isPrefixOf p = true ∨ (dirOf ul).isPrefixOf p = true) :
    fsGet p (cleanUp flag dl ul fs) = none := by
  rw [cleanUp_of_ne_true flag dl ul fs hflag]
  rcases h with h | h
  · exact fsGet_fsRemoveAll_none _ _ _ (fsGet_fsRemoveAll_of_under _ _ _ h)
  · exact fsGet_fsRemoveAll_of_under _ _ _ h

theorem fsGet_cleanUp_none (flag : String) (dl ul p : Path) (fs : FS)
    (h : fsGet p fs = none) : fsGet p (cleanUp flag dl ul fs) = none := by
  unfold cleanUp
  split
  · exact fsGet_fsRemoveAll_none _ _ _ (fsGet_fsRemoveAll_none _ _ _ h)
  · exact h

/-! ## Argument-parsing lemmas -/

theorem splitN2Aux_length (cs : List Char) : ∀ acc,
    (splitN2Aux acc cs).length = if cs.any (fun c => c == '/') then 2 else 1 := by
  induction cs with
  | nil => intro acc; simp [splitN2Aux]
  | cons c cs ih =>
    intro acc
    by_cases hc : c = '/'
    · subst hc; simp [splitN2Aux]
    · simp [splitN2Aux, hc, ih]

theorem splitN2_length_eq (s : String) :
    (splitN2 s).length = if hasSlash s then 2 else 1 :=
  splitN2Aux_length s.data []

theorem fatal_cond_iff (s : String) :
    (((splitN2 s).length != 2) = true) ↔ hasSlash s = false := by
  rw [splitN2_length_eq]
  cases h : hasSlash s <;> simp

end ObjectAppender

namespace ObjectAppender

/-! ## Pipeline structure lemmas -/

theorem appendObjects_result_ok (dl ul : Path) (t : String) (c : Counters)
    (fs : FS) : (appendObjects dl ul t c fs).result = Except.ok () := by
  simp only [appendObjects]
  split
  · rfl
  · split
    · rfl
    · split <;> rfl

theorem runMainTampered_fatal_eq (src tgt ecu : String) (now : Int)
    (listing : List LObj) (tam : FS → FS) (fs0 : FS)
    (h : hasSlash src = false ∨ hasSlash tgt = false) :
    runMainTampered src tgt ecu now listing tam fs0
      = { outcome := .fatalConfig, fs := fs0, counters := Counters.init } := by
  unfold runMainTampered
  have hc : (((splitN2 src).length != 2) || ((splitN2 tgt).length != 2)) = true := by
    simp only [Bool.or_eq_true, fatal_cond_iff]
    exact h
  rw [hc]
  rfl

theorem runMainTampered_not_fatal_eq (src tgt ecu : String) (now : Int)
    (listing : List LObj) (tam : FS → FS) (fs0 : FS)
    (hs : hasSlash src = true) (ht : hasSlash tgt = true) :
    runMainTampered src tgt ecu now listing tam fs0
      = runPipeline (parseBucket src) (parseBucket tgt) (parsePfx tgt) ecu now
          listing tam fs0 := by
  unfold runMainTampered
  have h1 : ((splitN2 src).length != 2) = false := by
    rw [splitN2_length_eq, hs]; rfl
  have h2 : ((splitN2 tgt).length != 2) = false := by
    rw [splitN2_length_eq, ht]; rfl
  rw [h1, h2]
  rfl

theorem runPipeline_err_eq (sb tb tp ecu : String) (now : Int)
    (listing : List LObj) (tam : FS → FS) (fs0 : FS) (e : String)
    (h : downloadObjects (mkRunDir sb now) listing Counters.init fs0 = .error e) :
    runPipeline sb tb tp ecu now listing tam fs0
      = { outcome := .failedNoUpload e,
          fs := cleanUp ecu (mkRunDir sb now) (mkRunDir tb now) fs0,
          counters := Counters.init } := by
  simp only [runPipeline]
  rw [h]

theorem runPipeline_ok_eq (sb tb tp ecu : String) (now : Int)
    (listing : List LObj) (tam : FS → FS) (fs0 : FS) (c1 : Counters) (fs1 : FS)
    (h : downloadObjects (mkRunDir sb now) listing Counters.init fs0 = .ok (c1, fs1)) :
    runPipeline sb tb tp ecu now listing tam fs0
      = { outcome := .uploaded tb (uploadKey tp (mkTargetObject sb now))
            ((fsGet (mkRunDir tb now ++ [mkTargetObject sb now])
              (appendObjects (mkRunDir sb now) (mkRunDir tb now)
                (mkTargetObject sb now) c1 (tam fs1)).fs).getD []),
          fs := cleanUp ecu (mkRunDir sb now) (mkRunDir tb now)
            (appendObjects (mkRunDir sb now) (mkRunDir tb now)
              (mkTargetObject sb now) c1 (tam fs1)).fs,
          counters := (appendObjects (mkRunDir sb now) (mkRunDir tb now)
            (mkTargetObject sb now) c1 (tam fs1)).counters } := by
  simp only [runPipeline]
  rw [h]
  simp only [appendObjects_result_ok]

theorem runPipeline_outcome_ne_fatal (sb tb tp ecu : String) (now : Int)
    (listing : List LObj) (tam : FS → FS) (fs0 : FS) :
    (runPipeline sb tb tp ecu now listing tam fs0).outcome
      ≠ Outcome.fatalConfig := by
  rcases h : downloadObjects (mkRunDir sb now) listing Counters.init fs0
    with e | ⟨c1, fs1⟩
  · rw [runPipeline_err_eq sb tb tp ecu now listing tam fs0 e h]
    simp
  · rw [runPipeline_ok_eq sb tb tp ecu now listing tam fs0 c1 fs1 h]
    simp

/-! ## C6 -/

/-- C6 counterexample: `"a/b/c"` does not contain exactly one slash (it has
two), yet the program does not terminate fatally — `main` parses it as
bucket `a`, key namespace `b/c` and runs all the way to the upload. -/
theorem sourceArg_two_slashes_not_fatal :
    slashCount "a/b/c" = 2
      ∧ (runMain "a/b/c" "t/p" "false" 5 [⟨"k", 1, [7]⟩] []).outcome
          = Outcome.uploaded "t" "p/a-5" [7] := by decide

/-- C6 (amended): the program terminates fatally before any store
interaction if and only if the source or target bucket/prefix argument
contains *no* slash at all (at least one slash is required; more than one is
accepted, the first splitting bucket from key namespace); on the fatal path
the filesystem and counters are untouched. -/
theorem runMain_fatal_iff_missing_slash (src tgt ecu : String) (now : Int)
    (listing : List LObj) (fs0 : FS) :
    ((runMain src tgt ecu now listing fs0).outcome = Outcome.fatalConfig
      ↔ (hasSlash src = false ∨ hasSlash tgt = false))
    ∧ ((runMain src tgt ecu now listing fs0).outcome = Outcome.fatalConfig →
        (runMain src tgt ecu now listing fs0).fs = fs0
          ∧ (runMain src tgt ecu now listing fs0).counters = Counters.init) := by
  unfold runMain
  by_cases h : hasSlash src = false ∨ hasSlash tgt = false
  · rw [runMainTampered_fatal_eq src tgt ecu now listing id fs0 h]
    exact ⟨⟨fun _ => h, fun _ => rfl⟩, fun _ => ⟨rfl, rfl⟩⟩
  · have h1 : hasSlash src = true := by
      cases hx : hasSlash src
      · exact absurd (Or.inl hx) h
      · rfl
    have h2 : hasSlash tgt = true := by
      cases hx : hasSlash tgt
      · exact absurd (Or.inr hx) h
      · rfl
    rw [runMainTampered_not_fatal_eq src tgt ecu now listing id fs0 h1 h2]
    refine ⟨⟨fun hout => ?_, fun hh => absurd hh h⟩, fun hout => ?_⟩
    · exact absurd hout
        (runPipeline_outcome_ne_fatal (parseBucket src) (parseBucket tgt)
          (parsePfx tgt) ecu now listing id fs0)
    · exact absurd hout
        (runPipeline_outcome_ne_fatal (parseBucket src) (parseBucket tgt)
          (parsePfx tgt) ecu now listing id fs0)

/-- C6 witness: a source argument with no slash is fatal and leaves the
state untouched. -/
theorem runMain_fatal_iff_missing_slash_witness :
    (runMain "nope" "t/p" "x" 5 [] []).fs = ([] : FS)
      ∧ (runMain "nope" "t/p" "x" 5 [] []).counters = Counters.init :=
  (runMain_fatal_iff_missing_slash "nope" "t/p" "x" 5 [] []).2 (by decide)

end ObjectAppender

namespace ObjectAppender

/-! ## C9 -/

/-- C9: the target key is derived deterministically as
`<target-prefix>/<source-bucket-name>-<run-timestamp>`: the derivation is a
pure function of those three values, and every key a run uploads to has
exactly that shape. -/
theorem uploadKey_derivation :
    (∀ tp sb : String, ∀ now : Int,
        uploadKey tp (mkTargetObject sb now)
          = tp ++ "/" ++ (sb ++ "-" ++ toString now))
      ∧ ∀ src tgt ecu : String, ∀ now : Int, ∀ listing : List LObj,
          ∀ tam : FS → FS, ∀ fs0 : FS, ∀ b k : String, ∀ c : Bytes,
          (runMainTampered src tgt ecu now listing tam fs0).outcome
              = Outcome.uploaded b k c →
            k = parsePfx tgt ++ "/" ++ (parseBucket src ++ "-" ++ toString now)
              ∧ b = parseBucket tgt := by
  constructor
  · intro tp sb now
    rfl
  · intro src tgt ecu now listing tam fs0 b k c h
    unfold runMainTampered at h
    split at h
    · simp at h
    · rcases hdl : downloadObjects (mkRunDir (parseBucket src) now) listing
        Counters.init fs0 with e | ⟨c1, fs1⟩
      · rw [runPipeline_err_eq _ _ _ _ _ _ _ _ _ hdl] at h
        simp at h
      · rw [runPipeline_ok_eq _ _ _ _ _ _ _ _ _ _ hdl] at h
        have h2 := h
        simp only [Outcome.uploaded.injEq] at h2
        exact ⟨h2.2.1.symm, h2.1.symm⟩

/-- C9 witness: a concrete run uploads to exactly the derived key. -/
theorem uploadKey_derivation_witness :
    uploadKey "q" (mkTargetObject "src" 7)
        = "q" ++ "/" ++ ("src" ++ "-" ++ toString (7 : Int))
      ∧ ("q/src-7" = parsePfx "tgt/q" ++ "/"
            ++ (parseBucket "src/" ++ "-" ++ toString (7 : Int))
          ∧ "tgt" = parseBucket "tgt/q") :=
  ⟨uploadKey_derivation.1 "q" "src" 7,
   uploadKey_derivation.2 "src/" "tgt/q" "true" 7 [⟨"a", 1, [1]⟩] id []
     "tgt" "q/src-7" [1] (by decide)⟩

/-! ## C10 -/

/-- C10: `cleanUp` is skipped only when the flag value is exactly the string
`"true"`; under every other value it removes every file below either parent
staging tree, while the value `"true"` leaves the filesystem unchanged. -/
theorem cleanUp_skipped_only_for_exact_true (flag : String) (dl ul p : Path)
    (fs : FS) :
    (flag ≠ "true" →
        ((dirOf dl).isPrefixOf p = true ∨ (dirOf ul).isPrefixOf p = true) →
        fsGet p (cleanUp flag dl ul fs) = none)
      ∧ cleanUp "true" dl ul fs = fs :=
  ⟨fun hflag h => fsGet_cleanUp_under flag dl ul p fs hflag h,
   cleanUp_true_eq dl ul fs⟩

/-- C10 witness: the value `"TRUE"` (not exactly `"true"`) still cleans up,
while `"true"` skips. -/
theorem cleanUp_skipped_only_for_exact_true_witness :
    fsGet (mkRunDir "b" 5 ++ ["f"])
        (cleanUp "TRUE" (mkRunDir "b" 5) (mkRunDir "c" 5)
          [(mkRunDir "b" 5 ++ ["f"], [1])]) = none
      ∧ cleanUp "true" (mkRunDir "b" 5) (mkRunDir "c" 5)
          [(mkRunDir "b" 5 ++ ["f"], [1])]
        = [(mkRunDir "b" 5 ++ ["f"], [1])] :=
  ⟨(cleanUp_skipped_only_for_exact_true "TRUE" (mkRunDir "b" 5)
      (mkRunDir "c" 5) (mkRunDir "b" 5 ++ ["f"])
      [(mkRunDir "b" 5 ++ ["f"], [1])]).1 (by decide) (Or.inl (by decide)),
   (cleanUp_skipped_only_for_exact_true "true" (mkRunDir "b" 5)
      (mkRunDir "c" 5) (mkRunDir "b" 5 ++ ["f"])
      [(mkRunDir "b" 5 ++ ["f"], [1])]).2⟩

/-! ## C1 -/

/-- C1 (code bug): the counters record one staged object of total size 2 but
the staging directory holds no file, so every consistency check fails
(`checksPass` is `false`) — yet `appendObjects` returns `ok`: the mismatch
branches of the source return the `err` variable, which is nil after the
successful walk and `Stat`, instead of a `DataIntegrityError`. -/
theorem appendObjects_mismatch_returns_ok :
    ((appendObjects (mkRunDir "src" 5) (mkRunDir "tgt" 5) "src-5"
        { objectCount := 1, objectSize := 2, fileCount := 0, fileSize := 0 }
        []).result = Except.ok ())
      ∧ checksPass
          (appendObjects (mkRunDir "src" 5) (mkRunDir "tgt" 5) "src-5"
            { objectCount := 1, objectSize := 2, fileCount := 0, fileSize := 0 }
            []).counters
          ((appendObjects (mkRunDir "src" 5) (mkRunDir "tgt" 5) "src-5"
            { objectCount := 1, objectSize := 2, fileCount := 0, fileSize := 0 }
            []).artifact.length : Int)
        = false := by decide

/-! ## C3 -/

/-- C3 (code bug): deleting the single staged item between staging and
appending makes `objectCount ≠ fileCount`, yet the run still reaches the
upload (of the now-empty artifact): the mismatch branch returns a nil error
instead of failing, so an upload *is* attempted.  The listing is a
`validListing` (one plain key `p/a` into an empty scratch area), so its
staging succeeds in the real program exactly as in the model and the run is
realizable. -/
theorem tampered_run_still_uploads :
    validListing [⟨"p/a", 2, [1, 2]⟩] = true
      ∧ ((runMainTampered "src/p" "tgt/q" "false" 5 [⟨"p/a", 2, [1, 2]⟩]
        (fsRemove (mkRunDir "src" 5 ++ splitKey "p/a")) []).outcome
      = Outcome.uploaded "tgt" "q/src-5" [])
      ∧ (runMainTampered "src/p" "tgt/q" "false" 5 [⟨"p/a", 2, [1, 2]⟩]
          (fsRemove (mkRunDir "src" 5 ++ splitKey "p/a")) []).counters.objectCount
        ≠ (runMainTampered "src/p" "tgt/q" "false" 5 [⟨"p/a", 2, [1, 2]⟩]
          (fsRemove (mkRunDir "src" 5 ++ splitKey "p/a")) []).counters.fileCount := by
  decide

/-! ## C5 -/

/-- C5 counterexample: cleaning up the run timestamped 111 under bucket `b`
also deletes the file of the sibling run timestamped 222 under the same
bucket — the claim says a different-timestamp directory is left unchanged. -/
theorem cleanUp_removes_sibling_run :
    fsGet ["", "tmp", "b", "222", "g"]
        [(mkRunDir "b" 111 ++ ["f"], [1]), (["", "tmp", "b", "222", "g"], [2])]
      = some [2]
      ∧ fsGet ["", "tmp", "b", "222", "g"]
          (cleanUp "false" (mkRunDir "b" 111) (mkRunDir "tb" 111)
            [(mkRunDir "b" 111 ++ ["f"], [1]),
              (["", "tmp", "b", "222", "g"], [2])])
        = none := by decide

/-- C5 (amended): with cleanup enabled, `cleanUp` removes the *entire*
parent trees `<root>/<source-bucket>` and `<root>/<target-bucket>` —
including scratch directories of other runs (other timestamps) under those
buckets — and leaves every file outside both parent trees unchanged. -/
theorem cleanUp_scope (flag sb tb : String) (now : Int) (fs : FS) (p : Path)
    (hflag : flag ≠ "true") :
    (((["", "tmp", sb] : Path).isPrefixOf p = true
        ∨ (["", "tmp", tb] : Path).isPrefixOf p = true) →
      fsGet p (cleanUp flag (mkRunDir sb now) (mkRunDir tb now) fs) = none)
    ∧ ((["", "tmp", sb] : Path).isPrefixOf p = false →
        (["", "tmp", tb] : Path).isPrefixOf p = false →
        fsGet p (cleanUp flag (mkRunDir sb now) (mkRunDir tb now) fs)
          = fsGet p fs) := by
  have hd : dirOf (mkRunDir sb now) = ["", "tmp", sb] := rfl
  have hu : dirOf (mkRunDir tb now) = ["", "tmp", tb] := rfl
  constructor
  · intro h
    apply fsGet_cleanUp_under _ _ _ _ _ hflag
    rw [hd, hu]
    exact h
  · intro h1 h2
    rw [cleanUp_of_ne_true _ _ _ _ hflag,
      fsGet_fsRemoveAll_of_not_under _ _ _ (by rw [hu]; exact h2),
      fsGet_fsRemoveAll_of_not_under _ _ _ (by rw [hd]; exact h1)]

/-- C5 witness: a sibling run's file under the same bucket is removed, a
file under an unrelated bucket is untouched. -/
theorem cleanUp_scope_witness :
    fsGet ["", "tmp", "b", "222", "g"]
        (cleanUp "false" (mkRunDir "b" 111) (mkRunDir "tb" 111)
          [(["", "tmp", "b", "222", "g"], [2]), (["", "tmp", "x", "1", "h"], [3])])
      = none
    ∧ fsGet ["", "tmp", "x", "1", "h"]
        (cleanUp "false" (mkRunDir "b" 111) (mkRunDir "tb" 111)
          [(["", "tmp", "b", "222", "g"], [2]), (["", "tmp", "x", "1", "h"], [3])])
      = fsGet ["", "tmp", "x", "1", "h"]
          [(["", "tmp", "b", "222", "g"], [2]), (["", "tmp", "x", "1", "h"], [3])] :=
  ⟨(cleanUp_scope "false" "b" "tb" 111
      [(["", "tmp", "b", "222", "g"], [2]), (["", "tmp", "x", "1", "h"], [3])]
      ["", "tmp", "b", "222", "g"] (by decide)).1 (Or.inl (by decide)),
   (cleanUp_scope "false" "b" "tb" 111
      [(["", "tmp", "b", "222", "g"], [2]), (["", "tmp", "x", "1", "h"], [3])]
      ["", "tmp", "x", "1", "h"] (by decide)).2 (by decide) (by decide)⟩

/-! ## C7 -/

theorem filter_filter_self {α : Type} (q : α → Bool) (l : List α) :
    (l.filter q).filter q = l.filter q := by
  rw [List.filter_filter]
  simp

theorem fsRemove_fsPut_self (p : Path) (c : Bytes) (fs : FS) :
    fsRemove p (fsPut p c fs) = fsRemove p fs := by
  unfold fsRemove fsPut
  rw [List.filter_append]
  simp [filter_filter_self]

theorem appendObjects_congr (dl ul : Path) (t : String) (c : Counters)
    (fsA fsB : FS)
    (h : fsRemove (ul ++ [t]) fsA = fsRemove (ul ++ [t]) fsB) :
    appendObjects dl ul t c fsA = appendObjects dl ul t c fsB := by
  simp only [appendObjects]
  rw [h]

/-- C7: any pre-existing artifact at the target scratch path is removed
before the fresh append: the whole result of `appendObjects` — artifact
bytes included — is the same whether a stale artifact of arbitrary contents
sat at the path or not, so no byte of a previous artifact survives. -/
theorem appendObjects_ignores_stale_artifact (dl ul : Path) (t : String)
    (c : Counters) (fs : FS) (old : Bytes) :
    appendObjects dl ul t c (fsPut (ul ++ [t]) old fs)
      = appendObjects dl ul t c (fsRemove (ul ++ [t]) fs) :=
  appendObjects_congr dl ul t c _ _ (by
    rw [fsRemove_fsPut_self]
    exact (filter_filter_self _ fs).symm)

end ObjectAppender

namespace ObjectAppender

/-! ## C4 -/

/-- C4: a listing of zero objects makes staging fail with the
`"no objects found"` error (the spec's NotFoundError); the run performs no
upload, and no artifact is produced: any path absent from the initial
filesystem — in particular the artifact path — is still absent afterwards. -/
theorem runMain_empty_listing_not_found (src tgt ecu : String) (now : Int)
    (fs0 : FS) (p : Path)
    (hs : hasSlash src = true) (ht : hasSlash tgt = true)
    (hp : fsGet p fs0 = none) :
    (runMain src tgt ecu now [] fs0).outcome
        = Outcome.failedNoUpload "no objects found"
      ∧ fsGet p (runMain src tgt ecu now [] fs0).fs = none := by
  unfold runMain
  rw [runMainTampered_not_fatal_eq src tgt ecu now [] id fs0 hs ht]
  have hdl : downloadObjects (mkRunDir (parseBucket src) now) []
      Counters.init fs0 = .error "no objects found" := rfl
  rw [runPipeline_err_eq _ _ _ _ _ _ _ _ _ hdl]
  exact ⟨rfl, fsGet_cleanUp_none _ _ _ _ _ hp⟩

/-- C4 witness: a concrete empty-listing run fails with the not-found error
and creates no artifact. -/
theorem runMain_empty_listing_not_found_witness :
    (runMain "s/p" "t/q" "false" 5 [] []).outcome
        = Outcome.failedNoUpload "no objects found"
      ∧ fsGet (mkRunDir "t" 5 ++ [mkTargetObject "s" 5])
          (runMain "s/p" "t/q" "false" 5 [] []).fs = none :=
  runMain_empty_listing_not_found "s/p" "t/q" "false" 5 []
    (mkRunDir "t" 5 ++ [mkTargetObject "s" 5]) (by decide) (by decide)
    (by decide)

/-! ## C8 -/

/-- C8: the `--enable-clean-up` flag defaults to `"false"`, and its
semantics are inverted: under the default `"false"` every file below either
parent staging tree is removed after the run, successful or failed, while
the value `"true"` makes `cleanUp` the identity, so scratch files persist. -/
theorem enableCleanUp_inverted_semantics :
    enableCleanUpDefault = "false"
      ∧ (∀ dl ul : Path, ∀ fs : FS, cleanUp "true" dl ul fs = fs)
      ∧ (∀ src tgt : String, ∀ now : Int, ∀ listing : List LObj,
          ∀ tam : FS → FS, ∀ fs0 : FS, ∀ p : Path,
          hasSlash src = true → hasSlash tgt = true →
          ((dirOf (mkRunDir (parseBucket src) now)).isPrefixOf p = true
            ∨ (dirOf (mkRunDir (parseBucket tgt) now)).isPrefixOf p = true) →
          fsGet p
            (runMainTampered src tgt enableCleanUpDefault now listing tam fs0).fs
            = none) := by
  refine ⟨rfl, fun dl ul fs => cleanUp_true_eq dl ul fs, ?_⟩
  intro src tgt now listing tam fs0 p hs ht hp
  rw [runMainTampered_not_fatal_eq src tgt enableCleanUpDefault now listing
    tam fs0 hs ht]
  rcases hdl : downloadObjects (mkRunDir (parseBucket src) now) listing
      Counters.init fs0 with e | ⟨c1, fs1⟩
  · rw [runPipeline_err_eq _ _ _ _ _ _ _ _ _ hdl]
    exact fsGet_cleanUp_under enableCleanUpDefault _ _ _ _ (by decide) hp
  · rw [runPipeline_ok_eq _ _ _ _ _ _ _ _ _ _ hdl]
    exact fsGet_cleanUp_under enableCleanUpDefault _ _ _ _ (by decide) hp

/-- C8 witness: under the default flag a concrete run's staged file is gone
afterwards. -/
theorem enableCleanUp_inverted_semantics_witness :
    fsGet (mkRunDir "s" 5 ++ ["a"])
        (runMainTampered "s/" "t/q" enableCleanUpDefault 5 [⟨"a", 1, [9]⟩]
          id []).fs = none :=
  enableCleanUp_inverted_semantics.2.2 "s/" "t/q" 5 [⟨"a", 1, [9]⟩] id []
    (mkRunDir "s" 5 ++ ["a"]) (by decide) (by decide) (Or.inl (by decide))

end ObjectAppender

namespace ObjectAppender

/-! ## Walk-order lemmas (towards C2) -/

theorem chListLt_irrefl (l : List Char) : chListLt l l = false := by
  induction l with
  | nil => rfl
  | cons c cs ih => simp [chListLt, ih]

theorem pathLt_append (d p q : Path) : pathLt (d ++ p) (d ++ q) = pathLt p q := by
  induction d with
  | nil => rfl
  | cons a as ih => simp [pathLt, chListLt_irrefl, ih]

theorem pathLt_stagedPath (dl : Path) (a b : LObj) :
    pathLt (stagedPath dl a) (stagedPath dl b) = keyPathLt a b := by
  unfold stagedPath keyPathLt
  exact pathLt_append dl _ _

theorem insertPath_map_stagedEntry (dl : Path) (a : LObj) (l : List LObj) :
    insertPath (stagedEntry dl a) (l.map (stagedEntry dl))
      = (insertObj a l).map (stagedEntry dl) := by
  induction l with
  | nil => rfl
  | cons b bs ih =>
    simp only [List.map_cons]
    unfold insertPath insertObj
    rw [show (stagedEntry dl a).1 = stagedPath dl a from rfl,
      show (stagedEntry dl b).1 = stagedPath dl b from rfl,
      pathLt_stagedPath]
    split
    · simp
    · simp [ih]

theorem sortPaths_map_stagedEntry (dl : Path) (l : List LObj) :
    sortPaths (l.map (stagedEntry dl)) = (sortObjs l).map (stagedEntry dl) := by
  induction l with
  | nil => rfl
  | cons a as ih =>
    simp only [List.map_cons, sortPaths, sortObjs]
    rw [ih, insertPath_map_stagedEntry]

theorem insertObj_perm (a : LObj) (l : List LObj) :
    List.Perm (insertObj a l) (a :: l) := by
  induction l with
  | nil => exact List.Perm.refl _
  | cons b bs ih =>
    unfold insertObj
    split
    · exact List.Perm.refl _
    · exact List.Perm.trans (List.Perm.cons b ih) (List.Perm.swap a b bs)

theorem sortObjs_perm (l : List LObj) : List.Perm (sortObjs l) l := by
  induction l with
  | nil => exact List.Perm.refl _
  | cons a as ih =>
    exact List.Perm.trans (insertObj_perm a (sortObjs as)) (List.Perm.cons a ih)

theorem foldl_append_bytes (l : List (Path × Bytes)) : ∀ acc : Bytes,
    l.foldl (fun acc e => acc ++ e.2) acc
      = acc ++ (l.map (fun e => e.2)).flatten := by
  induction l with
  | nil => intro acc; simp
  | cons e es ih => intro acc; simp [ih]

theorem walkOrderConcat_length (listing : List LObj) :
    (walkOrderConcat listing).length
      = (listing.map (fun o => o.content.length)).sum := by
  unfold walkOrderConcat
  rw [List.length_flatten, List.map_map]
  exact List.Perm.sum_eq ((sortObjs_perm listing).map _)

/-! ## splitKey is injective -/

theorem splitAllAux_ne_nil (cs : List Char) : ∀ acc, splitAllAux acc cs ≠ [] := by
  induction cs with
  | nil => intro acc; simp [splitAllAux]
  | cons c cs ih =>
    intro acc
    by_cases hc : c = '/'
    · simp [splitAllAux, hc]
    · simp only [splitAllAux, hc, if_false]
      exact ih _

theorem joinComponents_splitAllAux (cs : List Char) : ∀ acc,
    joinComponents (splitAllAux acc cs) = acc.reverse ++ cs := by
  induction cs with
  | nil => intro acc; simp [splitAllAux, joinComponents]
  | cons c cs ih =>
    intro acc
    by_cases hc : c = '/'
    · subst hc
      rw [show splitAllAux acc ('/' :: cs)
          = String.mk acc.reverse :: splitAllAux [] cs from by
        simp [splitAllAux]]
      rcases h : splitAllAux [] cs with _ | ⟨x, xs⟩
      · exact absurd h (splitAllAux_ne_nil cs [])
      · rw [show joinComponents (String.mk acc.reverse :: x :: xs)
            = (String.mk acc.reverse).data ++ '/' :: joinComponents (x :: xs)
            from rfl]
        rw [← h, ih]
        simp
    · rw [show splitAllAux acc (c :: cs) = splitAllAux (c :: acc) cs from by
        simp [splitAllAux, hc]]
      rw [ih]
      simp

theorem splitKey_injective : Function.Injective splitKey := by
  intro a b h
  have ha := joinComponents_splitAllAux a.data []
  have hb := joinComponents_splitAllAux b.data []
  unfold splitKey at h
  rw [h, hb] at ha
  exact (String.ext (by simpa using ha)).symm

theorem stagedPath_nodup (dl : Path) (listing : List LObj)
    (hkeys : (listing.map (fun o => o.key)).Nodup) :
    (listing.map (fun o => stagedPath dl o)).Nodup := by
  have hmm : (listing.map (fun o => stagedPath dl o))
      = (listing.map (fun o => o.key)).map (fun k => dl ++ splitKey k) := by
    rw [List.map_map]
    rfl
  rw [hmm]
  refine List.Nodup.map ?_ hkeys
  intro k1 k2 hk
  exact splitKey_injective (List.append_cancel_left hk)

/-! ## Staging lemmas -/

theorem stage_foldl_fst (dl : Path) (listing : List LObj) :
    ∀ c : Counters, ∀ fs : FS,
    (listing.foldl (stageStep dl) (c, fs)).1
      = { c with
          objectCount := c.objectCount + listing.length,
          objectSize := c.objectSize + (listing.map (fun o => o.size)).sum } := by
  induction listing with
  | nil => intro c fs; cases c; simp
  | cons o os ih =>
    intro c fs
    rw [List.foldl_cons]
    have hstep : stageStep dl (c, fs) o
        = ({ c with
              objectCount := c.objectCount + 1,
              objectSize := c.objectSize + o.size },
            fsPut (stagedPath dl o) o.content fs) := rfl
    rw [hstep, ih]
    cases c
    simp only [List.length_cons, List.map_cons, List.sum_cons, Counters.mk.injEq]
    refine ⟨by push_cast; omega, by omega, trivial, trivial⟩

theorem stage_foldl_snd (dl : Path) (listing : List LObj) :
    ∀ c : Counters, ∀ fs : FS,
    (∀ o ∈ listing, ∀ e ∈ fs, e.1 ≠ stagedPath dl o) →
    (listing.map (fun o => stagedPath dl o)).Nodup →
    (listing.foldl (stageStep dl) (c, fs)).2
      = fs ++ listing.map (stagedEntry dl) := by
  induction listing with
  | nil => intro c fs _ _; simp
  | cons o os ih =>
    intro c fs hfresh hnd
    rw [List.foldl_cons]
    have hput : fsPut (stagedPath dl o) o.content fs
        = fs ++ [stagedEntry dl o] := by
      unfold fsPut stagedEntry
      congr 1
      apply List.filter_eq_self.mpr
      intro e he
      simp [hfresh o (List.mem_cons_self o os) e he]
    have hstep : stageStep dl (c, fs) o
        = ({ c with
              objectCount := c.objectCount + 1,
              objectSize := c.objectSize + o.size },
            fs ++ [stagedEntry dl o]) := by
      unfold stageStep
      rw [hput]
    rw [hstep, ih _ _ ?hfr ?hnd2]
    · simp
    case hfr =>
      intro o2 ho2 e he
      rcases List.mem_append.mp he with he2 | he2
      · exact hfresh o2 (List.mem_cons_of_mem o ho2) e he2
      · have he3 : e = stagedEntry dl o := List.mem_singleton.mp he2
        subst he3
        show stagedPath dl o ≠ stagedPath dl o2
        intro hcontra
        have hhead := (List.nodup_cons.mp hnd).1
        have hmem : stagedPath dl o ∈ os.map (fun o3 => stagedPath dl o3) := by
          rw [hcontra]
          exact List.mem_map_of_mem _ ho2
        exact hhead hmem
    case hnd2 =>
      exact (List.nodup_cons.mp hnd).2

theorem downloadObjects_ok (dl : Path) (listing : List LObj) (fs : FS)
    (hne : listing ≠ [])
    (hfresh : ∀ o ∈ listing, ∀ e ∈ fs, e.1 ≠ stagedPath dl o)
    (hnd : (listing.map (fun o => stagedPath dl o)).Nodup) :
    downloadObjects dl listing Counters.init fs
      = .ok (⟨(listing.length : Int), (listing.map (fun o => o.size)).sum, 0, 0⟩,
          fs ++ listing.map (stagedEntry dl)) := by
  have hfold : listing.foldl (stageStep dl) (Counters.init, fs)
      = (⟨(listing.length : Int), (listing.map (fun o => o.size)).sum, 0, 0⟩,
          fs ++ listing.map (stagedEntry dl)) := by
    rw [Prod.ext_iff]
    refine ⟨?_, stage_foldl_snd dl listing Counters.init fs hfresh hnd⟩
    rw [stage_foldl_fst]
    simp [Counters.init]
  have hlen : (((listing.length : Int)) == 0) = false := by
    simp only [beq_eq_false_iff_ne, ne_eq, Nat.cast_eq_zero]
    rw [List.length_eq_zero]
    exact hne
  simp only [downloadObjects]
  rw [hfold]
  simp [hlen]

end ObjectAppender

namespace ObjectAppender

/-! ## Append on a staged filesystem -/

theorem isPrefixOf_append_self (l x : Path) : l.isPrefixOf (l ++ x) = true :=
  List.isPrefixOf_iff_prefix.mpr (List.prefix_append l x)

theorem mkRunDir_not_prefix (a b : String) (now : Int) (t : String)
    (h : a ≠ b) :
    (mkRunDir a now).isPrefixOf (mkRunDir b now ++ [t]) = false := by
  show (["", "tmp", a, toString now] : Path).isPrefixOf
      (["", "tmp", b, toString now, t] : Path) = false
  simp [List.isPrefixOf, h]

theorem fresh_of_not_under (dl : Path) (listing : List LObj) (fs0 : FS)
    (hfs0 : ∀ e ∈ fs0, dl.isPrefixOf e.1 = false) :
    ∀ o ∈ listing, ∀ e ∈ fs0, e.1 ≠ stagedPath dl o := by
  intro o _ e he hcontra
  have h1 := hfs0 e he
  rw [hcontra] at h1
  simp only [stagedPath] at h1
  rw [isPrefixOf_append_self] at h1
  exact Bool.noConfusion h1

theorem fsGet_fsPut_self (p : Path) (c : Bytes) (fs : FS) :
    fsGet p (fsPut p c fs) = some c := by
  unfold fsGet fsPut
  rw [List.find?_append]
  have h1 : (fs.filter (fun e => !(e.1 == p))).find? (fun e => e.1 == p)
      = none := by
    rw [List.find?_eq_none]
    intro e he
    have h2 := (List.mem_filter.mp he).2
    simp at h2
    simp [h2]
  rw [h1]
  simp

theorem walkFiles_staged (dl ap : Path) (fs0 : FS) (listing : List LObj)
    (hart : dl.isPrefixOf ap = false)
    (hfs0 : ∀ e ∈ fs0, dl.isPrefixOf e.1 = false) :
    walkFiles dl (fsPut ap [] (fsRemove ap (fs0 ++ listing.map (stagedEntry dl))))
      = (sortObjs listing).map (stagedEntry dl) := by
  have hstagedpre : ∀ e ∈ listing.map (stagedEntry dl),
      dl.isPrefixOf e.1 = true := by
    intro e he
    rcases List.mem_map.mp he with ⟨o, _, rfl⟩
    exact isPrefixOf_append_self dl (splitKey o.key)
  have hstagedne : ∀ e ∈ listing.map (stagedEntry dl), (e.1 == ap) = false := by
    intro e he
    have hpre := hstagedpre e he
    simp only [beq_eq_false_iff_ne, ne_eq]
    intro hcontra
    rw [hcontra] at hpre
    rw [hpre] at hart
    exact Bool.noConfusion hart
  unfold walkFiles fsPut fsRemove
  rw [filter_filter_self]
  rw [List.filter_append]
  have h1 : List.filter (fun e => dl.isPrefixOf e.1) [((ap : Path), ([] : Bytes))]
      = [] := by
    simp [hart]
  rw [h1, List.append_nil]
  rw [List.filter_append]
  rw [List.filter_append]
  have h2 : List.filter (fun e => !(e.1 == ap)) (listing.map (stagedEntry dl))
      = listing.map (stagedEntry dl) := by
    apply List.filter_eq_self.mpr
    intro e he
    simp [hstagedne e he]
  have h3 : List.filter (fun e => dl.isPrefixOf e.1) (listing.map (stagedEntry dl))
      = listing.map (stagedEntry dl) := by
    apply List.filter_eq_self.mpr
    intro e he
    exact hstagedpre e he
  have h4 : List.filter (fun e => dl.isPrefixOf e.1)
      (List.filter (fun e => !(e.1 == ap)) fs0) = [] := by
    rw [List.filter_eq_nil_iff]
    intro e he
    have h5 := (List.mem_filter.mp he).1
    simp [hfs0 e h5]
  rw [h2, h3, h4, List.nil_append]
  exact sortPaths_map_stagedEntry dl listing

theorem appendObjects_proj (dl ul : Path) (t : String) (c : Counters)
    (fs : FS) :
    (appendObjects dl ul t c fs).artifact
        = (walkFiles dl (fsPut (ul ++ [t]) [] (fsRemove (ul ++ [t]) fs))).foldl
            (fun acc e => acc ++ e.2) []
      ∧ (appendObjects dl ul t c fs).counters
        = { c with
            fileCount := c.fileCount
              + ((walkFiles dl (fsPut (ul ++ [t]) []
                  (fsRemove (ul ++ [t]) fs))).length : Int),
            fileSize := c.fileSize
              + ((walkFiles dl (fsPut (ul ++ [t]) []
                  (fsRemove (ul ++ [t]) fs))).map
                    (fun e => (e.2.length : Int))).sum }
      ∧ (appendObjects dl ul t c fs).fs
        = fsPut (ul ++ [t])
            ((walkFiles dl (fsPut (ul ++ [t]) [] (fsRemove (ul ++ [t]) fs))).foldl
              (fun acc e => acc ++ e.2) [])
            (fsPut (ul ++ [t]) [] (fsRemove (ul ++ [t]) fs)) :=
  ⟨rfl, rfl, rfl⟩

theorem appendObjects_on_staged (dl ul : Path) (t : String) (c : Counters)
    (fs0 : FS) (listing : List LObj)
    (hart : dl.isPrefixOf (ul ++ [t]) = false)
    (hfs0 : ∀ e ∈ fs0, dl.isPrefixOf e.1 = false) :
    (appendObjects dl ul t c (fs0 ++ listing.map (stagedEntry dl))).artifact
        = walkOrderConcat listing
      ∧ (appendObjects dl ul t c (fs0 ++ listing.map (stagedEntry dl))).counters
        = { c with
            fileCount := c.fileCount + (listing.length : Int),
            fileSize := c.fileSize
              + (listing.map (fun o => (o.content.length : Int))).sum }
      ∧ fsGet (ul ++ [t])
          (appendObjects dl ul t c (fs0 ++ listing.map (stagedEntry dl))).fs
        = some (walkOrderConcat listing) := by
  have hw := walkFiles_staged dl (ul ++ [t]) fs0 listing hart hfs0
  obtain ⟨ha, hc2, hfs⟩ :=
    appendObjects_proj dl ul t c (fs0 ++ listing.map (stagedEntry dl))
  rw [hw] at ha hc2 hfs
  have hart2 : ((sortObjs listing).map (stagedEntry dl)).foldl
      (fun acc e => acc ++ e.2) [] = walkOrderConcat listing := by
    rw [foldl_append_bytes]
    unfold walkOrderConcat
    rw [List.map_map]
    simp only [List.nil_append]
    rfl
  have hlen : ((sortObjs listing).map (stagedEntry dl)).length
      = listing.length := by
    rw [List.length_map]
    exact (sortObjs_perm listing).length_eq
  have hsum : (((sortObjs listing).map (stagedEntry dl)).map
      (fun e => (e.2.length : Int))).sum
      = (listing.map (fun o => (o.content.length : Int))).sum := by
    rw [List.map_map]
    exact List.Perm.sum_eq ((sortObjs_perm listing).map _)
  refine ⟨?_, ?_, ?_⟩
  · rw [ha, hart2]
  · rw [hc2, hlen, hsum]
  · rw [hfs, hart2, fsGet_fsPut_self]

end ObjectAppender

namespace ObjectAppender

/-! ## C2 -/

/-- C2 counterexample: with the listing `[("a!",[1]), ("a/b",[2])]` — which
*is* in bytewise lexicographic key order, the order object stores return,
and is a `validListing` (plain components, neither key's path a prefix of
the other's, so both stage exactly as modelled) — the artifact is `[2,1]`,
not the listing-order concatenation `[1,2]`: `filepath.Walk` descends into
directory `a` (reaching the staged `a/b`) before the file `a!`, because
entries are ordered per directory level. -/
theorem artifact_differs_from_listing_order :
    validListing [⟨"a!", 1, [1]⟩, ⟨"a/b", 1, [2]⟩] = true
      ∧ chListLt "a!".data "a/b".data = true
      ∧ (runMain "src/" "tgt/q" "true" 7 [⟨"a!", 1, [1]⟩, ⟨"a/b", 1, [2]⟩]
          []).outcome = Outcome.uploaded "tgt" "q/src-7" [2, 1]
      ∧ listingConcat [⟨"a!", 1, [1]⟩, ⟨"a/b", 1, [2]⟩] = [1, 2]
      ∧ ([2, 1] : Bytes) ≠ [1, 2] := by decide

/-- C2 (amended): for every run where the listing returns N distinct-keyed
objects whose advertised sizes match their contents and whose staged paths
form a valid file tree (`validListing`: plain key components, no key's path
a prefix of another's — the domain on which staging succeeds and the flat
filesystem model is exact), staged into a fresh scratch area (distinct
nonempty bucket names, no pre-existing file under either run directory or
on an ancestor of one), the artifact equals the concatenation of the
objects' bytes in *walk order* — objects ordered by their slash-split key,
componentwise bytewise (which coincides with listing order for flat keys
but not in general) — `fileCount` after the append equals N, and the
artifact size equals the sum of the listed sizes. -/
theorem runMain_artifact_walk_order (src tgt ecu : String) (now : Int)
    (listing : List LObj) (fs0 : FS)
    (hs : hasSlash src = true) (ht : hasSlash tgt = true)
    (hne : listing ≠ [])
    (hkeys : (listing.map (fun o => o.key)).Nodup)
    (hvalid : validListing listing = true)
    (hsz : ∀ o ∈ listing, o.size = (o.content.length : Int))
    (hbkt : parseBucket src ≠ parseBucket tgt)
    (hsb : parseBucket src ≠ "") (htb : parseBucket tgt ≠ "")
    (hfs0 : ∀ e ∈ fs0,
      (mkRunDir (parseBucket src) now).isPrefixOf e.1 = false)
    (hfs0ul : ∀ e ∈ fs0,
      (mkRunDir (parseBucket tgt) now).isPrefixOf e.1 = false)
    (hanc : ∀ e ∈ fs0,
      e.1.isPrefixOf (mkRunDir (parseBucket src) now) = false
        ∧ e.1.isPrefixOf (mkRunDir (parseBucket tgt) now) = false) :
    (runMain src tgt ecu now listing fs0).outcome
        = Outcome.uploaded (parseBucket tgt)
            (uploadKey (parsePfx tgt) (mkTargetObject (parseBucket src) now))
            (walkOrderConcat listing)
      ∧ (runMain src tgt ecu now listing fs0).counters.fileCount
          = (listing.length : Int)
      ∧ ((walkOrderConcat listing).length : Int)
          = (listing.map (fun o => o.size)).sum := by
  have hfresh := fresh_of_not_under (mkRunDir (parseBucket src) now) listing
    fs0 hfs0
  have hnd := stagedPath_nodup (mkRunDir (parseBucket src) now) listing hkeys
  have hdown := downloadObjects_ok (mkRunDir (parseBucket src) now) listing
    fs0 hne hfresh hnd
  have hart : (mkRunDir (parseBucket src) now).isPrefixOf
      (mkRunDir (parseBucket tgt) now
        ++ [mkTargetObject (parseBucket src) now]) = false :=
    mkRunDir_not_prefix _ _ now _ hbkt
  obtain ⟨ha, hc2, hfs⟩ := appendObjects_on_staged
    (mkRunDir (parseBucket src) now) (mkRunDir (parseBucket tgt) now)
    (mkTargetObject (parseBucket src) now)
    ⟨(listing.length : Int), (listing.map (fun o => o.size)).sum, 0, 0⟩
    fs0 listing hart hfs0
  unfold runMain
  rw [runMainTampered_not_fatal_eq src tgt ecu now listing id fs0 hs ht]
  rw [runPipeline_ok_eq (parseBucket src) (parseBucket tgt) (parsePfx tgt)
    ecu now listing id fs0 _ _ hdown]
  refine ⟨?_, ?_, ?_⟩
  · show Outcome.uploaded _ _
        ((fsGet (mkRunDir (parseBucket tgt) now
            ++ [mkTargetObject (parseBucket src) now])
          (appendObjects (mkRunDir (parseBucket src) now)
            (mkRunDir (parseBucket tgt) now)
            (mkTargetObject (parseBucket src) now) _
            (id (fs0 ++ listing.map
              (stagedEntry (mkRunDir (parseBucket src) now))))).fs).getD [])
      = _
    rw [id_eq, hfs]
    rfl
  · show (appendObjects (mkRunDir (parseBucket src) now)
        (mkRunDir (parseBucket tgt) now)
        (mkTargetObject (parseBucket src) now) _
        (id (fs0 ++ listing.map
          (stagedEntry (mkRunDir (parseBucket src) now))))).counters.fileCount
      = _
    rw [id_eq, hc2]
    show (0 : Int) + (listing.length : Int) = (listing.length : Int)
    omega
  · rw [walkOrderConcat_length, Nat.cast_list_sum, List.map_map]
    congr 1
    apply List.map_congr_left
    intro o ho
    exact (hsz o ho).symm

/-- C2 (amended) witness: the spec's own test case — objects `a`=`AA`,
`b`=`BB` — yields artifact `AABB` with the derived key and count. -/
theorem runMain_artifact_walk_order_witness :
    (runMain "s/" "t/q" "true" 7
        [⟨"a", 2, [65, 65]⟩, ⟨"b", 2, [66, 66]⟩] []).outcome
        = Outcome.uploaded (parseBucket "t/q")
            (uploadKey (parsePfx "t/q") (mkTargetObject (parseBucket "s/") 7))
            (walkOrderConcat [⟨"a", 2, [65, 65]⟩, ⟨"b", 2, [66, 66]⟩])
      ∧ walkOrderConcat [⟨"a", 2, [65, 65]⟩, ⟨"b", 2, [66, 66]⟩]
          = [65, 65, 66, 66] :=
  ⟨(runMain_artifact_walk_order "s/" "t/q" "true" 7
      [⟨"a", 2, [65, 65]⟩, ⟨"b", 2, [66, 66]⟩] [] (by decide) (by decide)
      (by decide) (by decide) (by decide) (by decide) (by decide) (by decide)
      (by decide) (by decide) (by decide) (by decide)).1,
   by decide⟩

end ObjectAppender
